import Mathlib

/-!
Verification development for the `dut` subcommand family of lium
(src/cmd/dut.rs): the registry listing / reconciliation path
(`run_dut_list`), the action dispatcher (`run_dut_do`), the monitor
construction loop (`run_dut_monitor`) and the discovery driver
(`run_discover`).

Rust values are shallowly embedded: `HashMap<String, String>` attribute
bags become association lists, `Result` becomes `Except`/`Option`, the
external SSH transport and the `lium::dut` library calls that are not in
this repository snapshot become oracle parameters (or, where their
behaviour decides a property, definitions modelled from the spec and
marked as such). Strings that are inspected character by character are
modelled as `List Char`.
-/

/-- Attribute bag returned by DUT info resolution
(`HashMap<String, String>` in the code), as an association list. -/
abbrev AttrMap := List (String × String)

/-- `DutStatus` from src/cmd/dut.rs lines 303-308. -/
inductive DutStatus where
  | Online
  | Offline
  | AddressReused
  deriving DecidableEq, Repr

/-- The fields of `lium::dut::DutInfo` that `run_dut_list` consumes:
`id()`, `info()` and `ssh()`.  `D` is the connection-descriptor type
(`SshInfo` in the code), kept abstract. -/
structure DutInfoR (D : Type) where
  id : String
  info : AttrMap
  ssh : D
  deriving DecidableEq

/-- Classification of one probed registry entry in `run_dut_list`
(src/cmd/dut.rs lines 373-381): `info` is the outcome of
`DutInfo::new(id).map(|e| e.info().clone())`, with `none` for `Err`.
`Some(id) == info.get("dut_id")` selects `Online`. -/
def classifyDut (id : String) (info : Option AttrMap) : DutStatus :=
  match info with
  | some info => if info.lookup "dut_id" = some id then .Online else .AddressReused
  | none => .Offline

/-- Status computed for the registry key `id` by the parallel probe of
`run_dut_list` (lines 370-383); `dutInfoNew` is the `DutInfo::new` oracle. -/
def reconcileStatus {D : Type} (dutInfoNew : String → Option (DutInfoR D)) (id : String) :
    DutStatus :=
  classifyDut id ((dutInfoNew id).map DutInfoR.info)

/-- The classified snapshot built by `duts.par_iter().map(..).collect()`
(lines 368-384); rayon's indexed parallel collect preserves input order. -/
def reconcileClassify {D : Type} (dutInfoNew : String → Option (DutInfoR D))
    (duts : List (String × D)) : List (String × DutStatus × D) :=
  duts.map (fun e => (e.1, reconcileStatus dutInfoNew e.1, e.2))

/-- Modelled from the spec: §4.1 `remove(identity) -> success, no-op-safe
if absent` — `SSH_CACHE.remove` (the store itself is not in this snapshot)
deletes the key from the durable mapping. -/
def removeKey {D : Type} (l : List (String × D)) (k : String) : List (String × D) :=
  l.filter (fun e => e.1 != k)

/-- Modelled from the spec: §4.1 `set(identity, descriptor) -> success,
overwrites existing` (last-write-wins) — `SSH_CACHE.set`. -/
def setKey {D : Type} (l : List (String × D)) (k : String) (v : D) : List (String × D) :=
  if l.any (fun e => e.1 == k) then l.map (fun e => if e.1 == k then (k, v) else e)
  else l ++ [(k, v)]

/-- The flags of `dut list` (src/cmd/dut.rs lines 309-336). -/
structure ArgsDutList where
  clear : Bool
  ids : Bool
  status : Bool
  add : Option String
  remove : Option String
  update : Bool
  deriving DecidableEq

/-- What `run_dut_list` prints, by branch. -/
inductive ListOutput (D : Type) where
  | cleared
  | idsOut (ids : List String)
  | added (id : String) (ssh : D)
  | removedOne (id : String)
  | statusReport (shown removed : List (String × DutStatus × D))
  | plainList (entries : List (String × D))
  deriving DecidableEq

/-- Embedding of `run_dut_list` (src/cmd/dut.rs lines 337-416).  The
durable store is `none` while uninitialized, otherwise the ordered
identity→descriptor mapping; `dutInfoNew` models `DutInfo::new` (`none`
for `Err`).  Returns the store after the run and what was printed.
Branch order follows the code: `--clear`, then `SSH_CACHE.entries()`
(whose failure is surfaced with the "SSH_CACHE is not initialized yet"
context), then `--ids`, `--add`, `--remove`, `--status`/`--update`,
else the plain listing.  In update mode the `AddressReused` rows of the
classified snapshot are reported and then removed one by one. -/
def runDutList {D : Type} (dutInfoNew : String → Option (DutInfoR D)) (args : ArgsDutList)
    (store : Option (List (String × D))) :
    Except String (Option (List (String × D)) × ListOutput D) :=
  if args.clear then .ok (some [], .cleared)
  else
    match store with
    | none => .error "SSH_CACHE is not initialized yet"
    | some duts =>
      if args.ids then .ok (some duts, .idsOut (duts.map Prod.fst))
      else
        match args.add with
        | some dutToAdd =>
          match dutInfoNew dutToAdd with
          | none => .error "DutInfo::new failed"
          | some info => .ok (some (setKey duts info.id info.ssh), .added info.id info.ssh)
        | none =>
          match args.remove with
          | some dutToRemove =>
            .ok (some (removeKey duts dutToRemove), .removedOne dutToRemove)
          | none =>
            if args.status || args.update then
              let classified := reconcileClassify dutInfoNew duts
              let toRemove :=
                if args.update then
                  classified.filter (fun e => e.2.1 == DutStatus.AddressReused)
                else []
              let toShow :=
                if args.update then
                  classified.filter (fun e => e.2.1 != DutStatus.AddressReused)
                else classified
              let newStore := toRemove.foldl (fun st e => removeKey st e.1) duts
              .ok (some newStore, .statusReport toShow toRemove)
            else .ok (some duts, .plainList duts)

/-- C1: for every registry entry probed by reconciliation, a failed
re-resolution classifies it `Offline`; a successful one whose returned
`dut_id` equals the entry's identity classifies it `Online`; a successful
one returning a different `dut_id` classifies it `AddressReused`. -/
theorem c1_reconcile_classification {D : Type}
    (dutInfoNew : String → Option (DutInfoR D)) (id : String) :
    (dutInfoNew id = none → reconcileStatus dutInfoNew id = .Offline) ∧
    (∀ r, dutInfoNew id = some r → r.info.lookup "dut_id" = some id →
      reconcileStatus dutInfoNew id = .Online) ∧
    (∀ r d, dutInfoNew id = some r → r.info.lookup "dut_id" = some d → d ≠ id →
      reconcileStatus dutInfoNew id = .AddressReused) := by
  refine ⟨fun h => by simp [reconcileStatus, classifyDut, h], ?_, ?_⟩
  · intro r hr hl
    simp [reconcileStatus, classifyDut, hr, hl]
  · intro r d hr hl hne
    simp [reconcileStatus, classifyDut, hr, hl, hne]

/-- Witness for C1 at concrete probe outcomes. -/
theorem c1_reconcile_classification_witness :
    reconcileStatus (D := Unit) (fun _ => none) "a" = .Offline ∧
    reconcileStatus (D := Unit) (fun _ => some ⟨"a", [("dut_id", "a")], ()⟩) "a" = .Online ∧
    reconcileStatus (D := Unit) (fun _ => some ⟨"b", [("dut_id", "b")], ()⟩) "a" =
      .AddressReused := by
  refine ⟨(c1_reconcile_classification (fun _ => none) "a").1 rfl,
    (c1_reconcile_classification (fun _ => some ⟨"a", [("dut_id", "a")], ()⟩) "a").2.1
      _ rfl (by decide),
    (c1_reconcile_classification (fun _ => some ⟨"b", [("dut_id", "b")], ()⟩) "a").2.2
      _ "b" rfl (by decide) (by decide)⟩

/-- C7: with the backing store uninitialized, `SSH_CACHE.entries()` fails
and every `dut list` operation other than `--clear` (plain list, `--ids`,
`--status`, `--update`, `--add`, `--remove`) surfaces that failure instead
of proceeding with an empty mapping. -/
theorem c7_uninitialized_store_fails {D : Type}
    (dutInfoNew : String → Option (DutInfoR D)) (args : ArgsDutList)
    (h : args.clear = false) :
    runDutList dutInfoNew args none = .error "SSH_CACHE is not initialized yet" := by
  simp [runDutList, h]

/-- Witness for C7: a `dut list --status` run over an uninitialized store. -/
theorem c7_uninitialized_store_fails_witness :
    runDutList (D := Unit) (fun _ => none)
      ⟨false, false, true, none, none, false⟩ none =
      .error "SSH_CACHE is not initialized yet" :=
  c7_uninitialized_store_fails (fun _ => none) ⟨false, false, true, none, none, false⟩ rfl

/-- Removing a batch of keys one by one (the update-mode removal loop,
lines 402-408) filters the store by the whole batch at once. -/
theorem foldl_removeKey_eq_filter {D E : Type} (key : E → String)
    (l : List (String × D)) (rs : List E) :
    rs.foldl (fun st e => removeKey st (key e)) l =
      l.filter (fun e => !(rs.any (fun r => key r == e.1))) := by
  induction rs generalizing l with
  | nil => simp
  | cons r rs ih =>
    rw [List.foldl_cons, ih]
    simp only [removeKey, List.filter_filter]
    apply List.filter_congr
    intro a _
    simp only [List.any_cons, Bool.not_or, bne]
    rw [BEq.comm]
    exact Bool.and_comm _ _

/-- Whether a snapshot entry's key appears among the `AddressReused` rows
of the classified snapshot is decided by that entry's own status. -/
theorem any_reconcile_removed {D : Type} (o : String → Option (DutInfoR D))
    (duts : List (String × D)) (e : String × D) (he : e ∈ duts) :
    (((reconcileClassify o duts).filter
        (fun x => x.2.1 == DutStatus.AddressReused)).any (fun r => r.1 == e.1)) =
      (reconcileStatus o e.1 == DutStatus.AddressReused) := by
  cases hst : reconcileStatus o e.1 == DutStatus.AddressReused with
  | true =>
    apply List.any_eq_true.mpr
    refine ⟨(e.1, reconcileStatus o e.1, e.2), ?_, by simp⟩
    apply List.mem_filter.mpr
    exact ⟨List.mem_map.mpr ⟨e, he, rfl⟩, hst⟩
  | false =>
    apply List.any_eq_false.mpr
    intro x hx
    rcases List.mem_filter.mp hx with ⟨hxm, hxst⟩
    rcases List.mem_map.mp hxm with ⟨u, _, rfl⟩
    intro hkey
    have : u.1 = e.1 := by simpa using hkey
    rw [this] at hxst
    rw [hxst] at hst
    exact Bool.noConfusion hst

/-- C2: in status mode reconciliation leaves the store untouched; in
update mode exactly the entries whose snapshot classification is
`AddressReused` are removed and the `Offline`/`Online` entries are kept
unchanged; the removals are a pure function of the point-in-time snapshot
classification, applied to the store after the probing phase. -/
theorem c2_reconcile_frame {D : Type} (dutInfoNew : String → Option (DutInfoR D))
    (args : ArgsDutList) (duts : List (String × D))
    (hclear : args.clear = false) (hids : args.ids = false) (hadd : args.add = none)
    (hrem : args.remove = none) (hmode : args.status = true ∨ args.update = true) :
    runDutList dutInfoNew args (some duts) =
      .ok
        (some (if args.update then
            duts.filter (fun e => reconcileStatus dutInfoNew e.1 != DutStatus.AddressReused)
          else duts),
         .statusReport
          (if args.update then
            (reconcileClassify dutInfoNew duts).filter
              (fun e => e.2.1 != DutStatus.AddressReused)
          else reconcileClassify dutInfoNew duts)
          (if args.update then
            (reconcileClassify dutInfoNew duts).filter
              (fun e => e.2.1 == DutStatus.AddressReused)
          else [])) := by
  cases hu : args.update with
  | false =>
    have hs : args.status = true := by
      rcases hmode with h | h
      · exact h
      · rw [h] at hu; cases hu
    simp [runDutList, hclear, hids, hadd, hrem, hu, hs]
  | true =>
    have hfold := foldl_removeKey_eq_filter
      (fun (e : String × DutStatus × D) => e.1) duts
      ((reconcileClassify dutInfoNew duts).filter
        (fun x => x.2.1 == DutStatus.AddressReused))
    have hfe : List.filter (fun (e : String × D) =>
        !((reconcileClassify dutInfoNew duts).filter
            (fun x => x.2.1 == DutStatus.AddressReused)).any
          (fun r => r.1 == e.1)) duts =
        duts.filter (fun e => reconcileStatus dutInfoNew e.1 != DutStatus.AddressReused) := by
      apply List.filter_congr
      intro e he
      rw [any_reconcile_removed dutInfoNew duts e he]
      rfl
    rw [hfe] at hfold
    simp [runDutList, hclear, hids, hadd, hrem, hu, hfold]

/-- Witness for C2: an update-mode run over a two-entry store where one
address is reused; only that entry is removed. -/
theorem c2_reconcile_frame_witness :
    runDutList (D := Nat)
      (fun id => if id = "b" then some ⟨"zzz", [("dut_id", "c")], 2⟩
        else some ⟨id, [("dut_id", id)], 1⟩)
      ⟨false, false, false, none, none, true⟩ (some [("a", 1), ("b", 2)]) =
      .ok (some [("a", 1)],
        .statusReport [("a", .Online, 1)] [("b", .AddressReused, 2)]) := by
  have h := c2_reconcile_frame
    (fun id => if id = "b" then some ⟨"zzz", [("dut_id", "c")], 2⟩
      else some ⟨id, [("dut_id", id)], 1⟩)
    ⟨false, false, false, none, none, true⟩ [("a", 1), ("b", 2)]
    rfl rfl rfl rfl (Or.inr rfl)
  exact h.trans (by rfl)

/-- The transport surface of `lium::dut::SshInfo` that the dut actions
call (the SSH execution capability is an external collaborator, so it is
an oracle here). -/
structure SshOracle where
  runCmdPiped : List String → Except String Unit
  runAutologin : Except String Unit

/-- `do_reboot` (src/cmd/dut.rs lines 235-237). -/
def do_reboot (s : SshOracle) : Except String Unit :=
  s.runCmdPiped ["reboot; exit"]

/-- `do_login` (lines 238-240). -/
def do_login (s : SshOracle) : Except String Unit :=
  s.runAutologin

/-- `do_tail_messages` (lines 241-243). -/
def do_tail_messages (s : SshOracle) : Except String Unit :=
  s.runCmdPiped ["tail -f /var/log/messages"]

/-- The static `DUT_ACTIONS` table (lines 244-252). -/
def DUT_ACTIONS : List (String × (SshOracle → Except String Unit)) :=
  [("reboot", do_reboot), ("login", do_login), ("tail_messages", do_tail_messages)]

/-- `DUT_ACTIONS.get(name)`; `contains_key` is its `isSome`. -/
def dutActionGet (n : String) : Option (SshOracle → Except String Unit) :=
  DUT_ACTIONS.lookup n

/-- The arguments of `dut do` (lines 253-266). -/
structure ArgsDutDo where
  dut : Option String
  actions : List String
  listActions : Bool

/-- Failures of `run_dut_do`, by branch. -/
inductive DoError where
  | unknownActions (unknown : List String)
  | missingDut
  | sshFailed (msg : String)
  | actionFailed (name : String) (cause : String)
  deriving DecidableEq

/-- Successful outcomes of `run_dut_do`. -/
inductive DoOutput where
  | listed (names : List String)
  | ran
  deriving DecidableEq

/-- The action loop (lines 296-299): runs each resolved action in the
order given, stopping at the first failure with the failing action's name
attached as context.  Returns the names actually invoked, in order,
paired with the outcome. -/
def execDutActions (s : SshOracle) :
    List (String × (SshOracle → Except String Unit)) →
      List String × Except DoError Unit
  | [] => ([], .ok ())
  | (n, f) :: rest =>
    match f s with
    | .ok _ => (n :: (execDutActions s rest).1, (execDutActions s rest).2)
    | .error e => ([n], .error (.actionFailed n e))

/-- Embedding of `run_dut_do` (lines 267-301).  `mkSsh` models
`SshInfo::new`; the `ensure_testing_rsa_is_there` credential provisioning
step is an excluded collaborator and elided.  Unknown names are collected
by a filter over the requested list; the error branch also fires on an
empty request.  Only then is the target resolved and the requested names
zipped with their `flat_map`-resolved actions (here `filterMap`) and run.
Returns the invoked action names, in order, with the outcome. -/
def runDutDo (mkSsh : String → Except String SshOracle) (args : ArgsDutDo) :
    List String × Except DoError DoOutput :=
  if args.listActions then ([], .ok (.listed (DUT_ACTIONS.map Prod.fst)))
  else
    let unknown := args.actions.filter (fun s => !(dutActionGet s).isSome)
    if unknown ≠ [] ∨ args.actions = [] then ([], .error (.unknownActions unknown))
    else
      match args.dut with
      | none => ([], .error .missingDut)
      | some d =>
        match mkSsh d with
        | .error e => ([], .error (.sshFailed e))
        | .ok s =>
          match execDutActions s (args.actions.zip (args.actions.filterMap dutActionGet)) with
          | (tr, .ok _) => (tr, .ok .ran)
          | (tr, .error e) => (tr, .error e)

/-- C3: if any requested name is missing from the action table, `dut do`
fails with nothing invoked, and the error carries exactly the unknown
names (all of them, in request order), not only the first. -/
theorem c3_unknown_actions_batch (mkSsh : String → Except String SshOracle)
    (args : ArgsDutDo) (hlist : args.listActions = false)
    (h : ∃ a ∈ args.actions, dutActionGet a = none) :
    runDutDo mkSsh args =
      ([], .error (.unknownActions
        (args.actions.filter (fun s => !(dutActionGet s).isSome)))) ∧
    ∀ a, a ∈ args.actions.filter (fun s => !(dutActionGet s).isSome) ↔
      (a ∈ args.actions ∧ dutActionGet a = none) := by
  have hne : args.actions.filter (fun s => !(dutActionGet s).isSome) ≠ [] := by
    rcases h with ⟨a, ha, hnone⟩
    intro hnil
    have hmem : a ∈ args.actions.filter (fun s => !(dutActionGet s).isSome) :=
      List.mem_filter.mpr ⟨ha, by simp [hnone]⟩
    rw [hnil] at hmem
    cases hmem
  constructor
  · simp only [runDutDo, hlist, Bool.false_eq_true, if_false]
    rw [if_pos (Or.inl hne)]
  · intro a
    constructor
    · intro hmem
      rcases List.mem_filter.mp hmem with ⟨h1, h2⟩
      refine ⟨h1, ?_⟩
      cases hg : dutActionGet a with
      | none => rfl
      | some f => rw [hg] at h2; cases h2
    · intro ⟨h1, h2⟩
      exact List.mem_filter.mpr ⟨h1, by simp [h2]⟩

/-- Witness for C3: one valid and one unknown name; the dispatcher
reports the unknown one with nothing invoked. -/
theorem c3_unknown_actions_batch_witness :
    runDutDo (fun _ => .error "unused") ⟨some "d", ["reboot", "nope"], false⟩ =
      ([], .error (.unknownActions ["nope"])) := by
  have h := c3_unknown_actions_batch (fun _ => .error "unused")
    ⟨some "d", ["reboot", "nope"], false⟩ rfl ⟨"nope", by simp, rfl⟩
  exact h.1.trans (by rfl)

/-- C10: with an empty action list, `dut do` fails with the
unknown-action validation error and an empty invocation trace, for every
dut argument and every `SshInfo::new` outcome — so before any target
connection is attempted and before any action runs. -/
theorem c10_empty_actions_rejected (mkSsh : String → Except String SshOracle)
    (dut : Option String) :
    runDutDo mkSsh ⟨dut, [], false⟩ = ([], .error (.unknownActions [])) := by
  simp [runDutDo]

/-- Running valid, all-succeeding names pairs each with its table entry
and invokes them all in order. -/
theorem execDutActions_all_ok (s : SshOracle) (acts : List String)
    (h : ∀ a ∈ acts, ∃ f, dutActionGet a = some f ∧ f s = .ok ()) :
    execDutActions s (acts.zip (acts.filterMap dutActionGet)) = (acts, .ok ()) := by
  induction acts with
  | nil => rfl
  | cons a rest ih =>
    rcases h a (by simp) with ⟨f, hf, hok⟩
    have hrest : ∀ x ∈ rest, ∃ g, dutActionGet x = some g ∧ g s = .ok () :=
      fun x hx => h x (by simp [hx])
    simp [List.filterMap_cons, hf, execDutActions, hok, ih hrest]

/-- With valid names and the first failure at `bad`, execution invokes
exactly the earlier names and then `bad`, and reports `bad` with its
cause; nothing after `bad` is invoked. -/
theorem execDutActions_first_failure (s : SshOracle) (pre : List String)
    (bad : String) (post : List String) (g : SshOracle → Except String Unit)
    (cause : String)
    (hpre : ∀ a ∈ pre, ∃ f, dutActionGet a = some f ∧ f s = .ok ())
    (hbadf : dutActionGet bad = some g) (hbad : g s = .error cause) :
    execDutActions s ((pre ++ bad :: post).zip
      ((pre ++ bad :: post).filterMap dutActionGet)) =
      (pre ++ [bad], .error (.actionFailed bad cause)) := by
  induction pre with
  | nil =>
    simp [List.filterMap_cons, hbadf, execDutActions, hbad]
  | cons a rest ih =>
    rcases hpre a (by simp) with ⟨f, hf, hok⟩
    have hrest : ∀ x ∈ rest, ∃ f, dutActionGet x = some f ∧ f s = .ok () :=
      fun x hx => hpre x (by simp [hx])
    have ih' := ih hrest
    simp only [List.cons_append, List.filterMap_cons, hf, List.zip_cons_cons,
      execDutActions, hok, ih']

/-- C4: when every requested name is valid, `dut do` executes the actions
strictly in the order given against the one resolved target; if all
succeed, all are invoked; if one fails, execution stops there with an
error naming that action and its cause, and no later action is invoked. -/
theorem c4_ordered_short_circuit (mkSsh : String → Except String SshOracle)
    (dutStr : String) (s : SshOracle) (hssh : mkSsh dutStr = .ok s) :
    (∀ acts : List String, acts ≠ [] →
      (∀ a ∈ acts, ∃ f, dutActionGet a = some f ∧ f s = .ok ()) →
      runDutDo mkSsh ⟨some dutStr, acts, false⟩ = (acts, .ok .ran)) ∧
    (∀ pre bad post g cause,
      (∀ a ∈ pre, ∃ f, dutActionGet a = some f ∧ f s = .ok ()) →
      dutActionGet bad = some g → g s = .error cause →
      (∀ a ∈ post, (dutActionGet a).isSome) →
      runDutDo mkSsh ⟨some dutStr, pre ++ bad :: post, false⟩ =
        (pre ++ [bad], .error (.actionFailed bad cause))) := by
  constructor
  · intro acts hne h
    have hvalid : ∀ a ∈ acts, (dutActionGet a).isSome := by
      intro a ha
      rcases h a ha with ⟨f, hf, _⟩
      simp [hf]
    have hfil : acts.filter (fun s => !(dutActionGet s).isSome) = [] := by
      rw [List.filter_eq_nil_iff]
      intro a ha
      simp [hvalid a ha]
    simp only [runDutDo, if_false, Bool.false_eq_true]
    rw [if_neg (not_or.mpr ⟨fun h1 => h1 hfil, hne⟩), hssh]
    dsimp only
    rw [execDutActions_all_ok s acts h]
  · intro pre bad post g cause hpre hbadf hbad hpost
    have hvalid : ∀ a ∈ pre ++ bad :: post, (dutActionGet a).isSome := by
      intro a ha
      rcases List.mem_append.mp ha with hl | hr
      · rcases hpre a hl with ⟨f, hf, _⟩
        simp [hf]
      · rcases List.mem_cons.mp hr with rfl | hp
        · simp [hbadf]
        · exact hpost a hp
    have hfil : (pre ++ bad :: post).filter (fun s => !(dutActionGet s).isSome) = [] := by
      rw [List.filter_eq_nil_iff]
      intro a ha
      simp [hvalid a ha]
    have hne : pre ++ bad :: post ≠ [] := by simp
    simp only [runDutDo, if_false, Bool.false_eq_true]
    rw [if_neg (not_or.mpr ⟨fun h1 => h1 hfil, hne⟩), hssh]
    dsimp only
    rw [execDutActions_first_failure s pre bad post g cause hpre hbadf hbad]

/-- Witness for C4: against a target whose `reboot` command fails with
"boom", `["login"]` runs fully, while `["login", "reboot",
"tail_messages"]` stops at `reboot` and never invokes `tail_messages`. -/
theorem c4_ordered_short_circuit_witness :
    runDutDo
      (fun _ => .ok ⟨fun cmd => if cmd = ["reboot; exit"] then .error "boom" else .ok (),
        .ok ()⟩)
      ⟨some "d", ["login"], false⟩ = (["login"], .ok .ran) ∧
    runDutDo
      (fun _ => .ok ⟨fun cmd => if cmd = ["reboot; exit"] then .error "boom" else .ok (),
        .ok ()⟩)
      ⟨some "d", ["login", "reboot", "tail_messages"], false⟩ =
      (["login", "reboot"], .error (.actionFailed "reboot" "boom")) := by
  have h := c4_ordered_short_circuit
    (fun _ => .ok ⟨fun cmd => if cmd = ["reboot; exit"] then .error "boom" else .ok (),
      .ok ()⟩)
    "d"
    ⟨fun cmd => if cmd = ["reboot; exit"] then .error "boom" else .ok (), .ok ()⟩
    rfl
  constructor
  · refine h.1 ["login"] (by simp) ?_
    intro a ha
    have : a = "login" := by simpa using ha
    subst this
    exact ⟨do_login, rfl, rfl⟩
  · refine h.2 ["login"] "reboot" ["tail_messages"] do_reboot "boom" ?_ rfl rfl ?_
    · intro a ha
      have : a = "login" := by simpa using ha
      subst this
      exact ⟨do_login, rfl, rfl⟩
    · intro a ha
      have : a = "tail_messages" := by simpa using ha
      subst this
      rfl

/-- Modelled from the spec: §3/§4.5 `MonitorTarget` — identity label and
an exclusively-owned local forwarding port, created at monitor start
(`lium::dut::MonitoredDut` is not part of this snapshot). -/
structure MonitoredDut where
  dut : String
  port : Nat
  deriving DecidableEq

/-- Modelled from the spec: §4.5 — `MonitoredDut::new(dut, port)` opens
one long-lived forwarding session immediately at construction and fails
if that session cannot be established; `session` is the tunnel-opening
collaborator. -/
def monitoredDutNew (session : String → Nat → Except String Unit)
    (dut : String) (port : Nat) : Except String MonitoredDut :=
  match session dut port with
  | .ok _ => .ok ⟨dut, port⟩
  | .error e => .error e

/-- The construction loop of `run_dut_monitor` (src/cmd/dut.rs lines
162-168) generalized over its starting port: one `MonitoredDut` per
identifier, `port += 1` between them, `?`-propagation of failures. -/
def monitorSetupFrom (session : String → Nat → Except String Unit)
    (duts : List String) (port : Nat) : Except String (List MonitoredDut) :=
  match duts with
  | [] => .ok []
  | d :: rest =>
    match monitoredDutNew session d port with
    | .error e => .error e
    | .ok t =>
      match monitorSetupFrom session rest (port + 1) with
      | .error e => .error e
      | .ok ts => .ok (t :: ts)

/-- The construction phase of `run_dut_monitor`: the port counter starts
at 4022 (line 163). -/
def monitorSetup (session : String → Nat → Except String Unit)
    (duts : List String) : Except String (List MonitoredDut) :=
  monitorSetupFrom session duts 4022

/-- A successful construction pass starting at `p` yields one target per
identifier, in order, with ports `p, p+1, ...`. -/
theorem monitorSetupFrom_ok (session : String → Nat → Except String Unit)
    (duts : List String) :
    ∀ (p : Nat) (ts : List MonitoredDut), monitorSetupFrom session duts p = .ok ts →
      ts.map MonitoredDut.dut = duts ∧
      ts.map MonitoredDut.port = (List.range duts.length).map (fun i => p + i) := by
  induction duts with
  | nil =>
    intro p ts h
    cases h
    simp
  | cons d rest ih =>
    intro p ts h
    unfold monitorSetupFrom at h
    cases hs : session d p with
    | error e => rw [monitoredDutNew, hs] at h; cases h
    | ok u =>
      rw [monitoredDutNew, hs] at h
      cases hr : monitorSetupFrom session rest (p + 1) with
      | error e => rw [hr] at h; cases h
      | ok ts' =>
        rw [hr] at h
        cases h
        rcases ih (p + 1) ts' hr with ⟨h1, h2⟩
        refine ⟨by simp [h1], ?_⟩
        simp only [List.map_cons, List.length_cons, List.range_succ_eq_map,
          List.map_map, h2]
        refine congrArg (fun l => (p + 0) :: l) ?_
        apply List.map_congr_left
        intro i _
        simp
        omega

/-- If the sessions for the first `pre.length` identifiers open and the
next one fails, the construction pass starting at `p` fails with that
error (so construction is fail-fast). -/
theorem monitorSetupFrom_fail (session : String → Nat → Except String Unit)
    (pre : List String) (d : String) (rest : List String) (e : String) :
    ∀ p : Nat, (∀ i, i < pre.length → session (pre.getD i "") (p + i) = .ok ()) →
      session d (p + pre.length) = .error e →
      monitorSetupFrom session (pre ++ d :: rest) p = .error e := by
  induction pre with
  | nil =>
    intro p _ hd
    simp only [List.nil_append, monitorSetupFrom, monitoredDutNew]
    rw [show p + ([] : List String).length = p by simp] at hd
    rw [hd]
  | cons a rest' ih =>
    intro p hpre hd
    have ha : session a p = .ok () := by
      have := hpre 0 (by simp)
      simpa using this
    have hpre' : ∀ i, i < rest'.length → session (rest'.getD i "") ((p + 1) + i) = .ok () := by
      intro i hi
      have := hpre (i + 1) (by simp; omega)
      simpa [Nat.add_assoc, Nat.add_comm 1 i] using this
    have hd' : session d ((p + 1) + rest'.length) = .error e := by
      have h := hd
      rw [show p + (a :: rest').length = (p + 1) + rest'.length by simp; omega] at h
      exact h
    have ih' := ih (p + 1) hpre' hd'
    have hmk : monitoredDutNew session a p = .ok ⟨a, p⟩ := by
      unfold monitoredDutNew
      rw [ha]
    have step : monitorSetupFrom session ((a :: rest') ++ d :: rest) p =
        match monitoredDutNew session a p with
        | .error e => .error e
        | .ok t =>
          match monitorSetupFrom session (rest' ++ d :: rest) (p + 1) with
          | .error e => .error e
          | .ok ts => .ok (t :: ts) := rfl
    rw [step, hmk]
    dsimp only
    rw [ih']

/-- C6: for every ordered identifier list, a successful monitor
construction yields exactly one target per identifier with local ports
`4022 + i` for the i-th identifier (distinct and strictly increasing from
the fixed base), and construction fails fast when some target's session
cannot be established. -/
theorem c6_monitor_ports (session : String → Nat → Except String Unit) :
    (∀ duts ts, monitorSetup session duts = .ok ts →
      ts.map MonitoredDut.dut = duts ∧
      ts.map MonitoredDut.port = (List.range duts.length).map (fun i => 4022 + i)) ∧
    (∀ pre d rest e,
      (∀ i, i < pre.length → session (pre.getD i "") (4022 + i) = .ok ()) →
      session d (4022 + pre.length) = .error e →
      monitorSetup session (pre ++ d :: rest) = .error e) := by
  constructor
  · intro duts ts h
    exact monitorSetupFrom_ok session duts 4022 ts h
  · intro pre d rest e hpre hd
    exact monitorSetupFrom_fail session pre d rest e 4022 hpre hd

/-- Witness for C6: three identifiers get ports 4022, 4023, 4024, and a
failing session for the second identifier aborts construction. -/
theorem c6_monitor_ports_witness :
    (([⟨"a", 4022⟩, ⟨"b", 4023⟩, ⟨"c", 4024⟩] : List MonitoredDut).map MonitoredDut.dut =
        ["a", "b", "c"] ∧
      ([⟨"a", 4022⟩, ⟨"b", 4023⟩, ⟨"c", 4024⟩] : List MonitoredDut).map MonitoredDut.port =
        (List.range 3).map (fun i => 4022 + i)) ∧
    monitorSetup (fun d _ => if d = "x" then .error "boom" else .ok ())
      ["a", "x", "b"] = .error "boom" := by
  constructor
  · exact (c6_monitor_ports
      (fun d _ => if d = "x" then .error "boom" else .ok ())).1 ["a", "b", "c"]
      [⟨"a", 4022⟩, ⟨"b", 4023⟩, ⟨"c", 4024⟩] rfl
  · refine (c6_monitor_ports
      (fun d _ => if d = "x" then .error "boom" else .ok ())).2 ["a"] "x" ["b"] "boom"
      ?_ rfl
    intro i hi
    simp only [List.length_cons, List.length_nil] at hi
    have : i = 0 := by omega
    subst this
    rfl

/-- Strings that `run_discover` inspects character by character, as char
lists. -/
abbrev Str := List Char

/-- The whitespace class of Rust `str::trim`, restricted to the ASCII
whitespace relevant to address lists; every lemma below is proved for an
arbitrary class, so nothing depends on this exact set. -/
def isWs (c : Char) : Bool :=
  c == ' ' || c == '\t' || c == '\n' || c == '\r'

/-- `split('\n')`: the pieces of `l` between newline characters, empty
pieces included; there is always at least one piece. -/
def splitNl : Str → List Str
  | [] => [[]]
  | c :: rest =>
    if c = '\n' then [] :: splitNl rest
    else
      match splitNl rest with
      | [] => [[c]]
      | h :: t => (c :: h) :: t

/-- `str::trim_end` for the whitespace class `ws`. -/
def trimEndWs (ws : Char → Bool) (l : Str) : Str :=
  (l.reverse.dropWhile ws).reverse

/-- `str::trim` for the whitespace class `ws`: both ends. -/
def trimWs (ws : Char → Bool) (l : Str) : Str :=
  (trimEndWs ws l).dropWhile ws

/-- Splitting into lines, trimming each and dropping the blank ones: the
shared tail of the code's pipeline and of the spec's description. -/
def trimmedPieces (ws : Char → Bool) (l : Str) : List Str :=
  ((splitNl l).map (trimWs ws)).filter (fun s => !s.isEmpty)

/-- The candidate-list parser of `run_discover`'s list-file mode
(src/cmd/dut.rs lines 495-501):
`addrs.trim().split('\n').map(str::trim).filter(|s| !s.is_empty())`. -/
def parseTargetList (l : Str) : List Str :=
  ((splitNl (trimWs isWs l)).map (trimWs isWs)).filter (fun s => !s.isEmpty)

/-- Spec-side definition for C8, following the claim's words: the
non-empty lines of the input, each with surrounding whitespace trimmed,
in order. -/
def nonEmptyTrimmedLines (l : Str) : List Str :=
  ((splitNl l).map (trimWs isWs)).filter (fun s => !s.isEmpty)

/-- `splitNl` never yields zero pieces. -/
theorem splitNl_ne_nil (l : Str) : splitNl l ≠ [] := by
  cases l with
  | nil => simp [splitNl]
  | cons c rest =>
    rw [splitNl]
    split
    · simp
    · split <;> simp

/-- Dropping a trailing whitespace character keeps `trimEndWs`. -/
theorem trimEndWs_snoc (ws : Char → Bool) (l : Str) (c : Char) (hc : ws c = true) :
    trimEndWs ws (l ++ [c]) = trimEndWs ws l := by
  simp [trimEndWs, List.dropWhile_cons, hc]

/-- Dropping a trailing whitespace character keeps `trimWs`. -/
theorem trimWs_snoc (ws : Char → Bool) (l : Str) (c : Char) (hc : ws c = true) :
    trimWs ws (l ++ [c]) = trimWs ws l := by
  unfold trimWs
  rw [trimEndWs_snoc ws l c hc]

/-- Dropping a leading whitespace character keeps `trimWs`. -/
theorem trimWs_cons (ws : Char → Bool) (c : Char) (l : Str) (hc : ws c = true) :
    trimWs ws (c :: l) = trimWs ws l := by
  unfold trimWs trimEndWs
  rw [List.reverse_cons, List.dropWhile_append]
  by_cases h : (l.reverse.dropWhile ws).isEmpty
  · rw [if_pos h]
    have h0 : l.reverse.dropWhile ws = [] := List.isEmpty_iff.mp h
    simp [List.dropWhile_cons, hc, h0]
  · rw [if_neg h]
    simp [List.reverse_append, List.dropWhile_cons, hc]

/-- A leading whitespace character never contributes a piece. -/
theorem trimmedPieces_cons_ws (ws : Char → Bool) (c : Char) (l : Str)
    (hc : ws c = true) :
    trimmedPieces ws (c :: l) = trimmedPieces ws l := by
  by_cases h : c = '\n'
  · subst h
    unfold trimmedPieces
    rw [show splitNl ('\n' :: l) = [] :: splitNl l from by rw [splitNl]; simp]
    simp [trimWs, trimEndWs]
  · rcases List.exists_cons_of_ne_nil (splitNl_ne_nil l) with ⟨h0, t0, hsp⟩
    have hstep : splitNl (c :: l) = (c :: h0) :: t0 := by
      rw [splitNl, if_neg h, hsp]
    unfold trimmedPieces
    rw [hstep, hsp]
    simp only [List.map_cons, trimWs_cons ws c h0 hc]

/-- Dropping all leading whitespace keeps the pieces. -/
theorem trimmedPieces_dropWhile (ws : Char → Bool) (l : Str) :
    trimmedPieces ws (l.dropWhile ws) = trimmedPieces ws l := by
  induction l with
  | nil => rfl
  | cons c l ih =>
    by_cases h : ws c
    · rw [List.dropWhile_cons_of_pos h, ih, trimmedPieces_cons_ws ws c l h]
    · rw [List.dropWhile_cons_of_neg h]

/-- Appends a character to the last piece. -/
def snocLast (c : Char) : List Str → List Str
  | [] => [[c]]
  | [h] => [h ++ [c]]
  | h :: t => h :: snocLast c t

/-- How `splitNl` acts on a string extended by one character. -/
theorem splitNl_snoc (l : Str) (c : Char) :
    splitNl (l ++ [c]) =
      if c = '\n' then splitNl l ++ [[]] else snocLast c (splitNl l) := by
  induction l with
  | nil =>
    by_cases h : c = '\n' <;> simp [splitNl, snocLast, h]
  | cons a l ih =>
    rw [List.cons_append]
    by_cases ha : a = '\n'
    · subst ha
      rw [splitNl, if_pos rfl, ih]
      by_cases h : c = '\n'
      · rw [if_pos h, if_pos h, splitNl, if_pos rfl, List.cons_append]
      · rw [if_neg h, if_neg h, splitNl, if_pos rfl]
        rcases List.exists_cons_of_ne_nil (splitNl_ne_nil l) with ⟨h0, t0, hsp⟩
        rw [hsp, show snocLast c ([] :: h0 :: t0) = [] :: snocLast c (h0 :: t0) from rfl]
    · rw [splitNl, if_neg ha, ih]
      rcases List.exists_cons_of_ne_nil (splitNl_ne_nil l) with ⟨h0, t0, hsp⟩
      by_cases h : c = '\n'
      · rw [if_pos h, if_pos h, hsp, splitNl, if_neg ha, hsp]
        simp
      · rw [if_neg h, if_neg h, hsp, splitNl, if_neg ha, hsp]
        cases t0 with
        | nil => simp [snocLast]
        | cons u t1 => simp [snocLast]

/-- Extending the last piece by a whitespace character does not change
the trimmed, blank-dropped pieces. -/
theorem filter_map_trim_snocLast (ws : Char → Bool) (c : Char) (hc : ws c = true)
    (L : List Str) :
    ((snocLast c L).map (trimWs ws)).filter (fun s => !s.isEmpty) =
      (L.map (trimWs ws)).filter (fun s => !s.isEmpty) := by
  induction L with
  | nil => simp [snocLast, trimWs, trimEndWs, hc]
  | cons h t ih =>
    cases t with
    | nil => simp [snocLast, trimWs_snoc ws h c hc]
    | cons u t1 =>
      rw [show snocLast c (h :: u :: t1) = h :: snocLast c (u :: t1) from rfl]
      rw [show (h :: snocLast c (u :: t1)).map (trimWs ws) =
          trimWs ws h :: (snocLast c (u :: t1)).map (trimWs ws) from rfl]
      rw [show (h :: u :: t1).map (trimWs ws) =
          trimWs ws h :: (u :: t1).map (trimWs ws) from rfl]
      rw [List.filter_cons, List.filter_cons, ih]

/-- A trailing whitespace character never contributes a piece. -/
theorem trimmedPieces_snoc_ws (ws : Char → Bool) (l : Str) (c : Char)
    (hc : ws c = true) :
    trimmedPieces ws (l ++ [c]) = trimmedPieces ws l := by
  unfold trimmedPieces
  rw [splitNl_snoc]
  by_cases h : c = '\n'
  · rw [if_pos h]
    simp [List.map_append, List.filter_append, trimWs, trimEndWs]
  · rw [if_neg h]
    exact filter_map_trim_snocLast ws c hc (splitNl l)

/-- A trailing all-whitespace chunk never contributes a piece. -/
theorem trimmedPieces_append_ws (ws : Char → Bool) :
    ∀ (w l : Str), (∀ c ∈ w, ws c = true) →
      trimmedPieces ws (l ++ w) = trimmedPieces ws l := by
  intro w
  induction w with
  | nil => intro l _; simp
  | cons c w ih =>
    intro l hw
    rw [show l ++ c :: w = (l ++ [c]) ++ w from by simp,
      ih (l ++ [c]) (fun x hx => hw x (by simp [hx])),
      trimmedPieces_snoc_ws ws l c (hw c (by simp))]

/-- Every string is its right-trim followed by its whitespace tail. -/
theorem trimEndWs_decomp (ws : Char → Bool) (l : Str) :
    trimEndWs ws l ++ (l.reverse.takeWhile ws).reverse = l := by
  unfold trimEndWs
  rw [← List.reverse_append, List.takeWhile_append_dropWhile, List.reverse_reverse]

/-- Right-trimming keeps the trimmed, blank-dropped pieces. -/
theorem trimmedPieces_trimEnd (ws : Char → Bool) (l : Str) :
    trimmedPieces ws (trimEndWs ws l) = trimmedPieces ws l := by
  conv_rhs => rw [← trimEndWs_decomp ws l]
  rw [trimmedPieces_append_ws ws _ _
    (fun c hcm => List.mem_takeWhile_imp (List.mem_reverse.mp hcm))]

/-- C8 core: the code's trim-whole-input-first pipeline produces exactly
the non-empty trimmed lines of the raw input. -/
theorem parseTargetList_eq_spec (l : Str) :
    parseTargetList l = nonEmptyTrimmedLines l := by
  show trimmedPieces isWs (trimWs isWs l) = trimmedPieces isWs l
  unfold trimWs
  rw [trimmedPieces_dropWhile, trimmedPieces_trimEnd]

/-- The arguments of `dut discover` (src/cmd/dut.rs lines 451-468). -/
structure ArgsDiscover where
  interface : Option String
  remote : Option String
  targetList : Option String
  extraAttr : List String

/-- The external effects `run_discover` performs, in order. -/
inductive DiscoverStep where
  | sendFiles (target : String) (files : List String) (dest : Option String)
  | runRemoteCmd (target : String) (cmd : String)
  | readCandidateList (path : String)
  | localScan (interface : Option String)
  | probeCandidates (addrs : List Str) (extraAttr : List String)
  deriving DecidableEq

/-- The remote re-invocation command built at lines 479-483:
`"~/lium dut discover"` with each extra attribute appended after a
space. -/
def discoverRemoteCmd (extraAttr : List String) : String :=
  extraAttr.foldl (fun c ea => c ++ " " ++ ea) "~/lium dut discover"

/-- Embedding of `run_discover` (src/cmd/dut.rs lines 469-513) as the
ordered list of external effects it performs when the collaborators
succeed.  `exePath` models `current_exe()`, `stdinText` what standard
input holds, `readFile` the file-reading collaborator and `scan`
`discover_local_nodes`.  With a remote host set, the executable is copied
there and discovery re-invoked; otherwise the candidates come from the
target list (standard input when the path is `-`) or from a local scan,
and are probed with the caller's extra attributes. -/
def runDiscover (exePath : String) (stdinText : Str) (readFile : String → Str)
    (scan : Option String → List Str) (args : ArgsDiscover) : List DiscoverStep :=
  match args.remote with
  | some r =>
    [.sendFiles r [exePath] (some "~/"),
     .runRemoteCmd r (discoverRemoteCmd args.extraAttr)]
  | none =>
    match args.targetList with
    | some p =>
      let text := if p = "-" then stdinText else readFile p
      [.readCandidateList p, .probeCandidates (parseTargetList text) args.extraAttr]
    | none =>
      [.localScan args.interface, .probeCandidates (scan args.interface) args.extraAttr]

/-- Steps that enumerate or probe candidates locally. -/
def isLocalDiscovery : DiscoverStep → Bool
  | .readCandidateList _ => true
  | .localScan _ => true
  | .probeCandidates _ _ => true
  | _ => false

/-- The command accumulator loop equals the base command followed by a
space-separated copy of every extra attribute, in order. -/
theorem discoverRemoteCmd_foldl (l : List String) (init : String) :
    l.foldl (fun c ea => c ++ " " ++ ea) init =
      init ++ (l.map (fun ea => " " ++ ea)).foldr (fun a b => a ++ b) "" := by
  induction l generalizing init with
  | nil => simp
  | cons a l ih =>
    simp only [List.foldl_cons, List.map_cons, List.foldr_cons, ih]
    simp [String.append_assoc]

/-- C9: with a remote host given, discovery copies the running executable
to that host and re-invokes discovery there with the caller's extra
attribute names appended to the command, and the run performs no local
candidate enumeration and no local probing. -/
theorem c9_remote_delegation (exePath : String) (stdinText : Str)
    (readFile : String → Str) (scan : Option String → List Str)
    (args : ArgsDiscover) (r : String) (h : args.remote = some r) :
    runDiscover exePath stdinText readFile scan args =
      [.sendFiles r [exePath] (some "~/"),
       .runRemoteCmd r (discoverRemoteCmd args.extraAttr)] ∧
    discoverRemoteCmd args.extraAttr =
      "~/lium dut discover" ++
        (args.extraAttr.map (fun ea => " " ++ ea)).foldr (fun a b => a ++ b) "" ∧
    ∀ step ∈ runDiscover exePath stdinText readFile scan args,
      isLocalDiscovery step = false := by
  refine ⟨by simp [runDiscover, h], discoverRemoteCmd_foldl _ _, ?_⟩
  intro step hs
  simp [runDiscover, h] at hs
  rcases hs with rfl | rfl <;> rfl

/-- Witness for C9: a delegated run copies the executable and invokes
remote discovery with the extra attribute forwarded. -/
theorem c9_remote_delegation_witness :
    runDiscover "/usr/bin/lium" [] (fun _ => []) (fun _ => [])
      ⟨none, some "host", none, ["hwid"]⟩ =
      [.sendFiles "host" ["/usr/bin/lium"] (some "~/"),
       .runRemoteCmd "host" "~/lium dut discover hwid"] := by
  have h := c9_remote_delegation "/usr/bin/lium" [] (fun _ => []) (fun _ => [])
    ⟨none, some "host", none, ["hwid"]⟩ "host" rfl
  rw [h.1]
  rw [show discoverRemoteCmd ["hwid"] = "~/lium dut discover hwid" from rfl]

/-- C8: in list-file mode the candidate list is computed from the input
text (standard input when the path is `-`, the file otherwise) and, for
every input text, it is exactly the non-empty lines with surrounding
whitespace trimmed from each line, in order — blank and whitespace-only
lines contribute nothing. -/
theorem c8_list_file_candidates (exePath : String) (stdinText : Str)
    (readFile : String → Str) (scan : Option String → List Str)
    (args : ArgsDiscover) (p : String)
    (hr : args.remote = none) (hp : args.targetList = some p) :
    runDiscover exePath stdinText readFile scan args =
      [.readCandidateList p,
       .probeCandidates (parseTargetList (if p = "-" then stdinText else readFile p))
         args.extraAttr] ∧
    ∀ text : Str, parseTargetList text = nonEmptyTrimmedLines text :=
  ⟨by simp [runDiscover, hr, hp], parseTargetList_eq_spec⟩

/-- Witness for C8: reading from standard input, with leading blanks, an
interior blank line and surrounding spaces. -/
theorem c8_list_file_candidates_witness :
    runDiscover "exe" [' ', 'a', '\n', '\n', ' ', 'b', ' '] (fun _ => []) (fun _ => [])
      ⟨none, none, some "-", []⟩ =
      [.readCandidateList "-", .probeCandidates [['a'], ['b']] []] ∧
    parseTargetList [' ', 'a', '\n', '\n', ' ', 'b', ' '] =
      nonEmptyTrimmedLines [' ', 'a', '\n', '\n', ' ', 'b', ' '] := by
  have h := c8_list_file_candidates "exe" [' ', 'a', '\n', '\n', ' ', 'b', ' ']
    (fun _ => []) (fun _ => []) ⟨none, none, some "-", []⟩ "-" rfl rfl
  refine ⟨h.1.trans ?_, h.2 _⟩
  rw [show parseTargetList
      (if ("-" : String) = "-" then [' ', 'a', '\n', '\n', ' ', 'b', ' '] else []) =
      [['a'], ['b']] from by decide]

/-- Modelled from the spec: §3 — a raw target string is used directly
when it parses as a `host[:port]` address, and "identifiers that are not
addresses resolve through the Registry".  `isAddr`/`parse` stand for the
address recognizer/parser inside `SshInfo::new` (not in this snapshot);
`reg` is the registry mapping. -/
def resolveTarget {D : Type} (isAddr : String → Bool) (parse : String → D)
    (reg : List (String × D)) (s : String) : Option D :=
  if isAddr s then some (parse s) else reg.lookup s

/-- Modelled from the spec: the canonical attribute set of §3
(`timestamp`, `dut_id`, `hwid`, `release`, `model`, `serial`, `mac`),
which is also the default key list `run_dut_info` passes to
`DutInfo::fetch_keys` (src/cmd/dut.rs lines 431-443).  `DutInfo::new`
takes no attribute-name restriction, so this is what a reconciliation
probe requests. -/
def dutInfoNewKeys : List String :=
  ["timestamp", "dut_id", "hwid", "release", "model", "serial", "mac"]

/-- Modelled from the spec: the probe request that `DutInfo::new(id)`
issues when `run_dut_list` reconciles the entry with key `id` (line 372):
the identifier is resolved to a descriptor by `resolveTarget` and the
`dutInfoNewKeys` attributes are fetched there.  Returns the descriptor
probed and the attribute names requested. -/
def reconcileProbeRequest {D : Type} (isAddr : String → Bool) (parse : String → D)
    (reg : List (String × D)) (id : String) : Option (D × List String) :=
  (resolveTarget isAddr parse reg id).map (fun d => (d, dutInfoNewKeys))

/-- Counterexample to C5 as stated: at a concrete one-entry registry, the
reconciliation probe for the entry requests the full canonical attribute
set — which is not `["dut_id"]` — rather than only `dut_id`. -/
theorem c5_only_dut_id_counterexample :
    reconcileProbeRequest (fun _ => false) (fun _ => 0) [("dut1", 7)] "dut1" =
      some (7, dutInfoNewKeys) ∧
    dutInfoNewKeys ≠ ["dut_id"] ∧ "hwid" ∈ dutInfoNewKeys := by
  refine ⟨by rfl, by decide, by decide⟩

/-- C5 amended: for every registry entry whose identity is not itself
address-shaped, reconciliation probes the entry's cached connection
descriptor — reached by resolving the identity through the registry, not
by using the cached descriptor directly — and requests the whole
canonical attribute set, which contains `dut_id` but is not only
`dut_id`. -/
theorem c5_reconcile_probe_request {D : Type} (isAddr : String → Bool)
    (parse : String → D) (reg : List (String × D)) (id : String) (d : D)
    (haddr : isAddr id = false) (hlook : reg.lookup id = some d) :
    reconcileProbeRequest isAddr parse reg id = some (d, dutInfoNewKeys) ∧
    "dut_id" ∈ dutInfoNewKeys ∧ dutInfoNewKeys ≠ ["dut_id"] := by
  refine ⟨?_, by decide, by decide⟩
  unfold reconcileProbeRequest resolveTarget
  rw [haddr]
  simp [hlook]

/-- Witness for the amended C5 at a concrete registry. -/
theorem c5_reconcile_probe_request_witness :
    reconcileProbeRequest (fun _ => false) (fun _ => 0) [("dut1", 7), ("dut2", 9)]
      "dut2" = some (9, dutInfoNewKeys) ∧
    "dut_id" ∈ dutInfoNewKeys ∧ dutInfoNewKeys ≠ ["dut_id"] :=
  c5_reconcile_probe_request (fun _ => false) (fun _ => 0) [("dut1", 7), ("dut2", 9)]
    "dut2" 9 rfl (by rfl)
